import Mathlib

/-!
Verification of the tick-to-factor surge pipeline.

The source is a polars-based pipeline (tick loader, bar builder, surge
detector, factor aggregator, factor engine, wide-matrix emitter).  This file
gives a shallow embedding of the parts of the code the claims are about:
columnar frames become lists of row structures, lazy expressions become pure
list transforms, float arithmetic is modelled exactly over the rationals, and
null-able columns become `Option` values.  Each definition is translated from
its source function; definitions that model code of the repository that is not
present under `src/` carry a doc comment starting with "Modelled from the
spec:".
-/

namespace SurgePipeline

/-! ## Rational statistics (polars `mean` / `std`)

Polars' `mean` of an empty aggregation is null; `std` uses `ddof = 1` and is
null whenever fewer than two samples are available.  We carry the variance
(`std` squared) instead of the standard deviation so that every definition
stays computable over `ℚ`; the bridge to the `μ + θ·σ` formula of the spec is
proved in the claim-8 theorem. -/

instance {ε α : Type} [DecidableEq ε] [DecidableEq α] : DecidableEq (Except ε α) :=
  fun a b =>
  match a, b with
  | .error x, .error y =>
    if h : x = y then isTrue (by subst h; rfl)
    else isFalse (by intro hc; injection hc; contradiction)
  | .error _, .ok _ => isFalse (by intro hc; exact Except.noConfusion hc)
  | .ok _, .error _ => isFalse (by intro hc; exact Except.noConfusion hc)
  | .ok x, .ok y =>
    if h : x = y then isTrue (by subst h; rfl)
    else isFalse (by intro hc; injection hc; contradiction)

def listMean (xs : List ℚ) : Option ℚ :=
  if xs.length = 0 then none else some (xs.sum / (xs.length : ℚ))

def listVar (xs : List ℚ) : Option ℚ :=
  if xs.length ≤ 1 then none
  else
    let m := xs.sum / (xs.length : ℚ)
    some ((xs.map (fun x => (x - m) ^ 2)).sum / ((xs.length : ℚ) - 1))

/-! ## Time policy (config.py)

Times of day are milliseconds since midnight; dates are opaque naturals
(`YYYYMMDD`).  The timestamp tables are the enumerated bar closes of
`M1_TIMESTAMPS`, `M5_TIMESTAMPS`, `M10_TIMESTAMPS`. -/

def minuteMs (h m : Nat) : Nat := (h * 60 + m) * 60000

inductive BarFreq | m1 | m5 | m10
  deriving DecidableEq, Repr

def freqMs : BarFreq → Nat
  | .m1 => 60000
  | .m5 => 300000
  | .m10 => 600000

def m1Timestamps : List Nat :=
  (List.range 120).map (fun i => minuteMs 9 31 + i * 60000) ++
  (List.range 120).map (fun i => minuteMs 13 1 + i * 60000)

def m5Timestamps : List Nat :=
  (List.range 24).map (fun i => minuteMs 9 35 + i * 300000) ++
  (List.range 24).map (fun i => minuteMs 13 5 + i * 300000)

def m10Timestamps : List Nat :=
  (List.range 12).map (fun i => minuteMs 9 40 + i * 600000) ++
  (List.range 12).map (fun i => minuteMs 13 10 + i * 600000)

def validBarTimes : BarFreq → List Nat
  | .m1 => m1Timestamps
  | .m5 => m5Timestamps
  | .m10 => m10Timestamps

/-- The seven named intraday slices of `config.get_trading_time_slice`. -/
inductive TradingTime
  | allDay | morning | afternoon | opening | closing | morningMid | afternoonMid
  deriving DecidableEq, Repr

def tradingTimeRange : TradingTime → Nat × Nat
  | .allDay => (minuteMs 9 31, minuteMs 15 0)
  | .morning => (minuteMs 9 31, minuteMs 11 30)
  | .afternoon => (minuteMs 13 1, minuteMs 15 0)
  | .opening => (minuteMs 9 31, minuteMs 10 0)
  | .closing => (minuteMs 14 31, minuteMs 15 0)
  | .morningMid => (minuteMs 10 1, minuteMs 11 30)
  | .afternoonMid => (minuteMs 13 1, minuteMs 14 30)

def tradingTimeSlice (f : BarFreq) (tt : TradingTime) : List Nat :=
  (validBarTimes f).filter
    (fun t => (tradingTimeRange tt).1 ≤ t ∧ t ≤ (tradingTimeRange tt).2)

/-! ## Bar-time assignment (bar_builder.BarBuilder.add_bar_time)

`bar_time(xts) = xts` when truncating to the frequency leaves `xts` unchanged,
otherwise `truncate(xts) + freq`; truncation is anchored at midnight (the
frequencies divide a day, so polars' epoch anchor and the day's midnight
agree). -/

def truncMs (f x : Nat) : Nat := f * (x / f)

def barTime (f x : Nat) : Nat :=
  if truncMs f x = x then x else truncMs f x + f

/-! ## Surge rule (shared by the three detectors in surge_factor.py)

All three detectors mark a row with the same conditional:
`when(std.is_null() | (std == 0)).then(False).otherwise(vol > mean + θ·std)`.
The baseline is carried as `(mean, variance)`; the strict comparison against
`mean + θ·√variance` is decided by squaring, which agrees with the float
comparison of the source for every θ ≥ 0 (claim 8's theorem proves the
bridge). -/

def surgeGt (vol m θ var : ℚ) : Bool :=
  decide (m < vol) && decide (θ ^ 2 * var < (vol - m) ^ 2)

def markSurge (θ vol : ℚ) (baseMean baseVar : Option ℚ) : Bool :=
  match baseVar, baseMean with
  | some v, some m => if v = 0 then false else surgeGt vol m θ v
  | _, _ => false

/-! ## Surge bar frames (surge_factor.py)

A `SBar` is one row of the bar frame the detectors consume: `bar_time` is
split into the row's `date` and its time of day (the two always agree in the
pipeline), `vol` is the bar volume and `barRet` the intra-bar return
`(close − open)/open` (null when `open ≤ 0`).  An `SRow` is a `SBar`
annotated with the baseline columns and `is_surge`. -/

structure SBar where
  symbol : String
  date : Nat
  time : Nat
  vol : ℚ
  barRet : Option ℚ
  deriving DecidableEq, Repr

structure SRow where
  bar : SBar
  baseMean : Option ℚ
  baseVar : Option ℚ
  isSurge : Bool
  deriving DecidableEq, Repr

/-! ## Generic list machinery: stable insertion sort, sorted key dedup,
indexed map.  These model polars `sort`, `group_by` key enumeration (the
final frames are sorted by their key columns) and positional window
functions. -/

def charLtB (a b : Char) : Bool := decide (a.toNat < b.toNat)

def charsLtB : List Char → List Char → Bool
  | [], [] => false
  | [], _ :: _ => true
  | _ :: _, [] => false
  | a :: as, b :: bs =>
    charLtB a b || (decide (a.toNat = b.toNat) && charsLtB as bs)

/-- Lexicographic order on strings (polars sorts symbol columns
lexicographically). -/
def strLtB (a b : String) : Bool := charsLtB a.data b.data

def insSorted (le : α → α → Bool) (a : α) : List α → List α
  | [] => [a]
  | b :: bs => if le a b then a :: b :: bs else b :: insSorted le a bs

def sortByKey (le : α → α → Bool) : List α → List α
  | [] => []
  | a :: as => insSorted le a (sortByKey le as)

def insSortedDedup [DecidableEq α] (lt : α → α → Bool) (a : α) : List α → List α
  | [] => [a]
  | b :: bs =>
    if lt a b then a :: b :: bs
    else if a = b then b :: bs
    else b :: insSortedDedup lt a bs

def sortedKeys [DecidableEq α] (lt : α → α → Bool) (ks : List α) : List α :=
  ks.foldr (insSortedDedup lt) []

def mapIdxFrom (f : Nat → α → β) : Nat → List α → List β
  | _, [] => []
  | n, a :: as => f n a :: mapIdxFrom f (n + 1) as

/-! ## EOD surge detector (SurgeFactor._identify_surge_eod)

Filter the frame to the configured intraday slice, compute mean/std of `vol`
over each `(symbol, date)` window, and mark surges. -/

def identifySurgeEod (f : BarFreq) (tt : TradingTime) (θ : ℚ) (bars : List SBar) :
    List SRow :=
  let slice := tradingTimeSlice f tt
  let df := bars.filter (fun r => decide (r.time ∈ slice))
  df.map (fun r =>
    let g := (df.filter (fun s => decide (s.symbol = r.symbol ∧ s.date = r.date))).map (·.vol)
    let m := listMean g
    let v := listVar g
    ⟨r, m, v, markSurge θ r.vol m v⟩)

/-! ## M10 rolling surge detector (SurgeFactor._identify_surge_m10_rolling)

Sort by `(symbol, date, bar_time)`, then per symbol take
`rolling_mean/rolling_std(window_size = k, min_periods = k)` of `vol` shifted
by one so that the window never contains the current bar. -/

def sbarLe (a b : SBar) : Bool :=
  strLtB a.symbol b.symbol || (decide (a.symbol = b.symbol) &&
    decide (a.date < b.date ∨ (a.date = b.date ∧ a.time ≤ b.time)))

def rollWindow (k : Nat) (xs : List ℚ) (j : Nat) : List ℚ :=
  (xs.drop (j + 1 - k)).take k

def rollMeanAt (k : Nat) (xs : List ℚ) (j : Nat) : Option ℚ :=
  if k ≤ j + 1 then listMean (rollWindow k xs j) else none

def rollVarAt (k : Nat) (xs : List ℚ) (j : Nat) : Option ℚ :=
  if k ≤ j + 1 then listVar (rollWindow k xs j) else none

def shiftRollMean (k : Nat) (xs : List ℚ) (j : Nat) : Option ℚ :=
  if j = 0 then none else rollMeanAt k xs (j - 1)

def shiftRollVar (k : Nat) (xs : List ℚ) (j : Nat) : Option ℚ :=
  if j = 0 then none else rollVarAt k xs (j - 1)

def symbolVols (rows : List SBar) (sym : String) : List ℚ :=
  (rows.filter (fun r => decide (r.symbol = sym))).map (·.vol)

def identifySurgeM10Rolling (k : Nat) (θ : ℚ) (bars : List SBar) : List SRow :=
  let sorted := sortByKey sbarLe bars
  mapIdxFrom (fun i r =>
    let j := ((sorted.take i).filter (fun s => decide (s.symbol = r.symbol))).length
    let vols := symbolVols sorted r.symbol
    let m := shiftRollMean k vols j
    let v := shiftRollVar k vols j
    ⟨r, m, v, markSurge θ r.vol m v⟩) 0 sorted

/-! ## M10 same-time surge detector (SurgeFactor._identify_surge_m10_same_time)

For each target date `D` (iterating over the sorted distinct dates of the
frame), take the `H` dates just before `D`; when fewer than `H` exist the
date is skipped.  Baselines are mean/std of `vol` grouped by
`(symbol, time-of-day)` over those dates, left-joined onto `D`'s rows. -/

def insDate (d : Nat) : List Nat → List Nat
  | [] => [d]
  | e :: es => if d < e then d :: e :: es else if d = e then e :: es else e :: insDate d es

def distinctDates (rows : List SBar) : List Nat :=
  rows.foldr (fun r acc => insDate r.date acc) []

def idxDate (d : Nat) : List Nat → Nat
  | [] => 0
  | e :: es => if e = d then 0 else idxDate d es + 1

def lookbackDates (dates : List Nat) (lbH : Nat) (d : Nat) : List Nat :=
  let i := idxDate d dates
  (dates.drop (i - lbH)).take (i - (i - lbH))

def sameTimeAnnotate (bars : List SBar) (base : List SBar) (θ : ℚ) (d : Nat) :
    List SRow :=
  (bars.filter (fun r => decide (r.date = d))).map (fun r =>
    let g := (base.filter (fun s => decide (s.symbol = r.symbol ∧ s.time = r.time))).map (·.vol)
    let m := listMean g
    let v := listVar g
    ⟨r, m, v, markSurge θ r.vol m v⟩)

def identifySurgeM10SameTime (lbH : Nat) (θ : ℚ) (bars : List SBar) : List SRow :=
  let dates := distinctDates bars
  ((dates.map (fun d =>
    let lb := lookbackDates dates lbH d
    if lb.length < lbH then []
    else sameTimeAnnotate bars (bars.filter (fun r => decide (r.date ∈ lb))) θ d)).flatten)

/-- The source raises a `ValueError` when every date lacks history; the
checked variant surfaces that as `Except.error`. -/
def identifySurgeM10SameTimeChecked (lbH : Nat) (θ : ℚ) (bars : List SBar) :
    Except String (List SRow) :=
  let out := identifySurgeM10SameTime lbH θ bars
  let dates := distinctDates bars
  if dates.all (fun d => decide ((lookbackDates dates lbH d).length < lbH)) then
    .error ("insufficient history for every date")
  else .ok out

/-! ## surge_ret aggregation (SurgeFactor._aggregate_surge_ret)

Filter to `is_surge = true` (raising when no surge moment exists), group by
`(symbol, date)` for EOD or by `(symbol, date, bar_time)` for M10 — note that
the code groups on the raw `bar_time`, there is no projection to the M10
grid — reduce `bar_ret` by the configured statistic, then optionally
cross-sectionally de-mean (per `date` for EOD, per `(date, bar_time)` for
M10) and optionally take absolute values. -/

inductive IntradayStat | mean | max | min
  deriving DecidableEq, Repr

def listMaxQ : List ℚ → Option ℚ
  | [] => none
  | a :: as => some (as.foldl (fun m x => if m < x then x else m) a)

def listMinQ : List ℚ → Option ℚ
  | [] => none
  | a :: as => some (as.foldl (fun m x => if x < m then x else m) a)

def aggStat : IntradayStat → List (Option ℚ) → Option ℚ
  | .mean, xs => listMean (xs.filterMap id)
  | .max, xs => listMaxQ (xs.filterMap id)
  | .min, xs => listMinQ (xs.filterMap id)

structure EodFactorRow where
  symbol : String
  date : Nat
  individualStat : Option ℚ
  factorValue : Option ℚ
  deriving DecidableEq, Repr

structure M10FactorRow where
  symbol : String
  date : Nat
  time : Nat
  individualStat : Option ℚ
  factorValue : Option ℚ
  deriving DecidableEq, Repr

def key2Lt (a b : String × Nat) : Bool :=
  strLtB a.1 b.1 || (decide (a.1 = b.1) && decide (a.2 < b.2))

def key3Lt (a b : String × Nat × Nat) : Bool :=
  strLtB a.1 b.1 || (decide (a.1 = b.1) &&
    decide (a.2.1 < b.2.1 ∨ (a.2.1 = b.2.1 ∧ a.2.2 < b.2.2)))

def subOpt : Option ℚ → Option ℚ → Option ℚ
  | some a, some b => some (a - b)
  | _, _ => none

def aggregateSurgeRetEod (stat : IntradayStat) (neutralize isAbs : Bool)
    (rows : List SRow) : Except String (List EodFactorRow) :=
  let surges := rows.filter (·.isSurge)
  if surges.length = 0 then .error ("no surge moments detected") else
  .ok (
    let keys := sortedKeys key2Lt (surges.map (fun r => (r.bar.symbol, r.bar.date)))
    let grouped : List EodFactorRow := keys.map (fun k =>
      let g := surges.filter (fun r => decide ((r.bar.symbol, r.bar.date) = k))
      { symbol := k.1, date := k.2,
        individualStat := aggStat stat (g.map (·.bar.barRet)), factorValue := none })
    let withFv :=
      if neutralize then
        grouped.map (fun r =>
          let sec := (grouped.filter (fun s => decide (s.date = r.date))).map
            (·.individualStat)
          { r with factorValue := subOpt r.individualStat (listMean (sec.filterMap id)) })
      else grouped.map (fun r => { r with factorValue := r.individualStat })
    if isAbs then withFv.map (fun r => { r with factorValue := r.factorValue.map (fun q => |q|) })
    else withFv)

def aggregateSurgeRetM10 (stat : IntradayStat) (neutralize isAbs : Bool)
    (rows : List SRow) : Except String (List M10FactorRow) :=
  let surges := rows.filter (·.isSurge)
  if surges.length = 0 then .error ("no surge moments detected") else
  .ok (
    let keys := sortedKeys key3Lt
      (surges.map (fun r => (r.bar.symbol, r.bar.date, r.bar.time)))
    let grouped : List M10FactorRow := keys.map (fun k =>
      let g := surges.filter (fun r => decide ((r.bar.symbol, r.bar.date, r.bar.time) = k))
      { symbol := k.1, date := k.2.1, time := k.2.2,
        individualStat := aggStat stat (g.map (·.bar.barRet)), factorValue := none })
    let withFv :=
      if neutralize then
        grouped.map (fun r =>
          let sec := (grouped.filter (fun s => decide (s.date = r.date ∧ s.time = r.time))).map
            (·.individualStat)
          { r with factorValue := subOpt r.individualStat (listMean (sec.filterMap id)) })
      else grouped.map (fun r => { r with factorValue := r.individualStat })
    if isAbs then withFv.map (fun r => { r with factorValue := r.factorValue.map (fun q => |q|) })
    else withFv)

/-! ## EOD finalization -/

structure FinalEodRow where
  symbol : String
  date : Nat
  barTimeDate : Nat
  barTimeTod : Nat
  factorValue : Option ℚ
  deriving DecidableEq, Repr

/-- Modelled from the spec: `SurgeFactor.calculate_single_day` — the per-day
driver the factor engine calls — is absent from `src/` (only its caller
`FactorEngine._calculate_single_settlement_day` and its consumer
`legion_saver._save_single_factor_eod` are present).  Per the spec, after the
EOD aggregation it sets `bar_time := date ⊕ 15:00:00` on every output row. -/
def finalizeEodBarTime (rows : List EodFactorRow) : List FinalEodRow :=
  rows.map (fun r =>
    { symbol := r.symbol, date := r.date, barTimeDate := r.date,
      barTimeTod := minuteMs 15 0, factorValue := r.factorValue })

/-! ## Trade-based bar building (bar_builder.BarBuilder.group_by_bar_trade)

Drop cancellations (`flag == 52`), attach `bar_time`, sort by
`(symbol, date, xts)`, aggregate OHLCV per `(symbol, date, bar_time)` with the
output sorted by its key, keep only enumerated bar times, then derive `vwap`,
`pcls` (previous close per symbol) and `ret`.  `opn` stands for the source's
`open` column (a reserved word here). -/

structure Trade where
  symbol : String
  date : Nat
  xts : Nat
  px : ℚ
  qty : ℚ
  amt : ℚ
  flag : Nat
  deriving DecidableEq, Repr

structure Bar where
  symbol : String
  date : Nat
  time : Nat
  opn : ℚ
  high : ℚ
  low : ℚ
  close : ℚ
  vol : ℚ
  amt : ℚ
  tradeCount : Nat
  vwap : Option ℚ
  ret : Option ℚ
  pcls : Option ℚ
  deriving DecidableEq, Repr

def tradeLe (a b : Trade) : Bool :=
  strLtB a.symbol b.symbol || (decide (a.symbol = b.symbol) &&
    decide (a.date < b.date ∨ (a.date = b.date ∧ a.xts ≤ b.xts)))

def groupByBarTrade (f : BarFreq) (rows : List Trade) : List Bar :=
  let r1 := rows.filter (fun r => decide (r.flag ≠ 52))
  let r2 := r1.map (fun r => (r, barTime (freqMs f) r.xts))
  let r3 := sortByKey (fun a b => tradeLe a.1 b.1) r2
  let keys := sortedKeys key3Lt (r3.map (fun p => (p.1.symbol, p.1.date, p.2)))
  let agg := keys.map (fun k =>
    let g := r3.filter (fun p => decide ((p.1.symbol, p.1.date, p.2) = k))
    let pxs := g.map (fun p => p.1.px)
    { symbol := k.1, date := k.2.1, time := k.2.2,
      opn := pxs.headD 0, high := (listMaxQ pxs).getD 0,
      low := (listMinQ pxs).getD 0, close := pxs.getLastD 0,
      vol := (g.map (fun p => p.1.qty)).sum, amt := (g.map (fun p => p.1.amt)).sum,
      tradeCount := g.length, vwap := none, ret := none, pcls := none : Bar })
  let valid := agg.filter (fun b => decide (b.time ∈ validBarTimes f))
  let withVwap := valid.map (fun b =>
    { b with vwap := if b.vol ≤ 0 then none else some (b.amt / b.vol) })
  let withPcls := mapIdxFrom (fun i (b : Bar) =>
    { b with pcls :=
        (((withVwap.take i).filter (fun c : Bar => decide (c.symbol = b.symbol))).map
          (fun c : Bar => c.close)).getLast? }) 0 withVwap
  withPcls.map (fun b =>
    { b with ret :=
        match b.pcls with
        | none => none
        | some p => if p ≤ 0 then none else some (b.close / p - 1) })

/-- The bar frame enters the surge pipeline with the intra-bar return
`bar_ret = (close − open)/open`, null when `open ≤ 0`
(SurgeFactor._add_bar_returns, duplicated inline in the engine). -/
def barToSBar (b : Bar) : SBar :=
  { symbol := b.symbol, date := b.date, time := b.time, vol := b.vol,
    barRet := if b.opn ≤ 0 then none else some ((b.close - b.opn) / b.opn) }

/-! ## Factor engine settlement-day task (FactorEngine._calculate_single_settlement_day)

The task loads trades for the date window and builds **one** bar frame, with
`BarBuilder(freq = factor_configs[0].get("bar_freq", "1m"))`; every factor
configuration is then evaluated on that frame. -/

structure FactorConfig where
  barFreq : BarFreq
  threshold : ℚ
  deriving DecidableEq, Repr

def firstBarFreq : List FactorConfig → BarFreq
  | [] => BarFreq.m1
  | c :: _ => c.barFreq

def settlementDayBarFrame (configs : List FactorConfig) (ticks : List Trade) :
    List Bar :=
  groupByBarTrade (firstBarFreq configs) ticks

def settlementDayBuiltFreqs (configs : List FactorConfig) : List BarFreq :=
  [firstBarFreq configs]

/-- The bar frame handed to one particular configuration of the list: the
task passes the same cached `bar_data` to every `calculate_single_day`. -/
def frameUsedFor (configs : List FactorConfig) (ticks : List Trade)
    (_c : FactorConfig) : List Bar :=
  settlementDayBarFrame configs ticks

/-! ## Tick store presence and the missing-file policy
(high_freq_cancel_M10.check_tick_files_exist, DataLoader, FactorEngine) -/

inductive Exchange | sh | sz
  deriving DecidableEq, Repr

inductive TickKind | trade | quote | snap
  deriving DecidableEq, Repr

structure TickPath where
  kind : TickKind
  exch : Exchange
  date : Nat
  deriving DecidableEq, Repr

structure TickStore where
  present : TickPath → Bool
  content : TickPath → List Trade

/-- The decorator checks `trade/SH`, `quote/SZ`, `trade/SZ` (the `quote/SH`
entry is commented out in the source). -/
def hfRequiredPaths (date : Nat) : List TickPath :=
  [⟨.trade, .sh, date⟩, ⟨.quote, .sz, date⟩, ⟨.trade, .sz, date⟩]

def checkTickFilesExist (env : TickStore) (f : Nat → α) (date : Nat) : Option α :=
  if (hfRequiredPaths date).all env.present then some (f date) else none

def tradePaths (dates : List Nat) : List TickPath :=
  (dates.map (fun d => [TickPath.mk .trade .sh d, TickPath.mk .trade .sz d])).flatten

/-- `DataLoader.load_trade` scans one file per `(date, exchange)`; a missing
file surfaces as an error when the lazy frame is collected. -/
def loadTrade (env : TickStore) (dates : List Nat) : Except String (List Trade) :=
  if (tradePaths dates).all env.present
  then .ok ((tradePaths dates).map env.content).flatten
  else .error ("missing tick file")

/-- The settlement-day task body for an EOD surge_ret configuration.  Its
date window is the settlement date alone (modelled from the spec:
`SurgeFactor.get_lookback_days`, absent from `src/`, yields lookback 0 for
EOD configs, so `dates = [biz(D, 0), …, D] = [D]`). -/
def taskBody (env : TickStore) (f : BarFreq) (tt : TradingTime) (θ : ℚ)
    (stat : IntradayStat) (neutralize isAbs : Bool) (date : Nat) :
    Except String (List EodFactorRow) :=
  match loadTrade env [date] with
  | .error e => .error e
  | .ok ticks =>
    aggregateSurgeRetEod stat neutralize isAbs
      (identifySurgeEod f tt θ ((groupByBarTrade f ticks).map barToSBar))

/-- `_calculate_single_settlement_day` catches every exception at the task
boundary, logs it, and returns an empty result map. -/
def calcSingleDay (env : TickStore) (f : BarFreq) (tt : TradingTime) (θ : ℚ)
    (stat : IntradayStat) (neutralize isAbs : Bool) (date : Nat) :
    List EodFactorRow :=
  match taskBody env f tt θ stat neutralize isAbs date with
  | .ok r => r
  | .error _ => []

/-- `FactorEngine.calculate` runs one task per settlement date and
concatenates the per-date frames of each factor. -/
def engineOutputs (env : TickStore) (f : BarFreq) (tt : TradingTime) (θ : ℚ)
    (stat : IntradayStat) (neutralize isAbs : Bool) (dates : List Nat) :
    List EodFactorRow :=
  (dates.map (calcSingleDay env f tt θ stat neutralize isAbs)).flatten

/-! ## Symbol decoration (data_loader.add_exchange_suffix and
high_freq_cancel_M10.add_exchange_suffix)

Zero-pad `inst_id` to six characters, attach the exchange suffix decided by
the code's leading digits, and keep only rows whose symbol matched one of the
recognised patterns.  The loader variant knows only `.SH` and `.SZ`; the
cancellation-factor variant adds a `.BJ` branch. -/

def padStart6 (s : String) : String :=
  String.mk (List.replicate (6 - s.data.length) '0') ++ s

def pfxOf : List Char → List Char → Bool
  | [], _ => true
  | _ :: _, [] => false
  | a :: as, b :: bs => decide (a = b) && pfxOf as bs

def startsWithStr (s p : String) : Bool := pfxOf p.data s.data

def hasSeg (p : List Char) : List Char → Bool
  | [] => pfxOf p []
  | c :: rest => pfxOf p (c :: rest) || hasSeg p rest

def containsStr (s p : String) : Bool := hasSeg p.data s.data

def decorateLoaderSymbol (instId : String) : Option String :=
  let p := padStart6 instId
  let sym :=
    if startsWithStr p ("60") || startsWithStr p ("68") then p ++ (".SH")
    else if startsWithStr p ("00") || startsWithStr p ("30") then p ++ (".SZ")
    else p
  if containsStr sym (".SH") || containsStr sym (".SZ") then some sym else none

def decorateCancelSymbol (instId : String) : Option String :=
  let p := padStart6 instId
  let sym :=
    if startsWithStr p ("60") || startsWithStr p ("68") then p ++ (".SH")
    else if startsWithStr p ("00") || startsWithStr p ("30") then p ++ (".SZ")
    else if startsWithStr p ("8") || startsWithStr p ("43") || startsWithStr p ("87")
      then p ++ (".BJ")
    else p
  if containsStr sym ("SH") || containsStr sym ("SZ") || containsStr sym ("BJ")
  then some sym else none

/-! ## Concrete scenario data (the spec's boundary scenarios S1, S4, S5, S6
and the counterexample inputs) -/

/-- S1: one trade at exactly 09:35:00.000 with px 10, qty 100, amt 1000. -/
def s1Trades : List Trade := [⟨"A", 20220104, minuteMs 9 35, 10, 100, 1000, 70⟩]

/-- The 09:35 bar the S1 trade must produce. -/
def s1Bar : Bar :=
  ⟨"A", 20220104, minuteMs 9 35, 10, 10, 10, 10, 100, 1000, 1, some 10, none, none⟩

/-- S4: three 5m bars of one symbol/day with vol [10, 10, 100] and bar_ret
[0.001, 0.002, 0.05]. -/
def s4Bars : List SBar := [
  ⟨"A", 20220104, minuteMs 9 35, 10, some (1/1000)⟩,
  ⟨"A", 20220104, minuteMs 9 40, 10, some (1/500)⟩,
  ⟨"A", 20220104, minuteMs 9 45, 100, some (1/20)⟩ ]

/-- S5: 50 consecutive 1m bars of one symbol, vol 100 for bars 1–48 and
vol 1000 for bars 49–50. -/
def s5Bars : List SBar :=
  (List.range 50).map (fun i =>
    ⟨"A", 20220104, minuteMs 9 31 + i * 60000, if i < 48 then (100 : ℚ) else 1000, some 0⟩)

/-- Bar 49 of S5 (index 48) as the rolling detector annotates it. -/
def c6Row48 : SRow :=
  ⟨⟨"A", 20220104, minuteMs 9 31 + 48 * 60000, 1000, some 0⟩, some 100, some 0, false⟩

/-- S6: a surge-annotated 1m frame with surges at 10:37 (bar_ret 0.01) and
10:38 (bar_ret 0.02) and a non-surge bar at 10:40. -/
def s6Rows : List SRow := [
  ⟨⟨"A", 20220104, minuteMs 10 37, 50, some (1/100)⟩, some 10, some 4, true⟩,
  ⟨⟨"A", 20220104, minuteMs 10 38, 60, some (1/50)⟩, some 10, some 4, true⟩,
  ⟨⟨"A", 20220104, minuteMs 10 40, 5, some (3/1000)⟩, some 10, some 4, false⟩ ]

/-- Same-time witness frame: one symbol, two dates, one time of day. -/
def c7Bars : List SBar := [⟨"A", 1, 600, 10, some 0⟩, ⟨"A", 2, 600, 20, some 0⟩]

/-- The single output row of the same-time detector on `c7Bars` with H = 1. -/
def c7Row : SRow := ⟨⟨"A", 2, 600, 20, some 0⟩, some 10, none, false⟩

/-- Two factor configurations with different bar frequencies. -/
def c3Configs : List FactorConfig := [⟨BarFreq.m1, 1⟩, ⟨BarFreq.m5, 1⟩]

/-- One trade at 09:33:30, which lands in the 09:34 1m bar but in the 09:35
5m bar, so the two frequencies' bar frames differ. -/
def c3Ticks : List Trade := [⟨"A", 20220104, minuteMs 9 33 + 30000, 10, 100, 1000, 70⟩]

/-- A tick store where exactly the `trade/SH/20220104` file is absent. -/
def c10Env : TickStore :=
  ⟨fun p => decide (p ≠ ⟨.trade, .sh, 20220104⟩), fun _ => []⟩

/-! ## Helper lemmas -/

theorem mapIdxFrom_getElem? (f : Nat → α → β) (n : Nat) (l : List α) (i : Nat) :
    (mapIdxFrom f n l)[i]? = (l[i]?).map (f (n + i)) := by
  induction l generalizing n i with
  | nil => simp [mapIdxFrom]
  | cons a as ih =>
    cases i with
    | zero => simp [mapIdxFrom]
    | succ j =>
      have harith : n + 1 + j = n + (j + 1) := by omega
      simp only [mapIdxFrom, List.getElem?_cons_succ, ih (n + 1) j, harith]

theorem mapIdxFrom_mem {f : Nat → α → β} {x : β} :
    ∀ {l : List α} {n : Nat}, x ∈ mapIdxFrom f n l → ∃ i a, a ∈ l ∧ x = f i a := by
  intro l
  induction l with
  | nil => intro n hx; simp [mapIdxFrom] at hx
  | cons a as ih =>
    intro n hx
    simp only [mapIdxFrom, List.mem_cons] at hx
    rcases hx with h | h
    · exact ⟨n, a, by simp, h⟩
    · obtain ⟨i, b, hb, he⟩ := ih h
      exact ⟨i, b, by simp [hb], he⟩

theorem barTime_eq_self_iff (f x : Nat) (hf : 0 < f) :
    barTime f x = x ↔ f ∣ x := by
  have hdm : f * (x / f) + x % f = x := Nat.div_add_mod x f
  have hml : x % f < f := Nat.mod_lt x hf
  rw [Nat.dvd_iff_mod_eq_zero]
  unfold barTime truncMs
  generalize f * (x / f) = t at hdm ⊢
  by_cases hx : t = x
  · rw [if_pos hx] <;> omega
  · rw [if_neg hx] <;> omega

theorem barTime_bounds (f x : Nat) (hf : 0 < f) :
    x ≤ barTime f x ∧ barTime f x < x + f ∧ f ∣ barTime f x := by
  have hdvd : f ∣ barTime f x := by
    unfold barTime truncMs
    by_cases hx : f * (x / f) = x
    · rw [if_pos hx]; exact ⟨x / f, hx.symm⟩
    · rw [if_neg hx]; exact ⟨x / f + 1, by ring⟩
  refine ⟨?_, ?_, hdvd⟩ <;>
  · have hdm : f * (x / f) + x % f = x := Nat.div_add_mod x f
    have hml : x % f < f := Nat.mod_lt x hf
    unfold barTime truncMs
    generalize f * (x / f) = t at hdm ⊢
    by_cases hx : t = x
    · rw [if_pos hx] <;> omega
    · rw [if_neg hx] <;> omega

theorem groupByBarTrade_time_valid (bf : BarFreq) (rows : List Trade) (b : Bar)
    (hb : b ∈ groupByBarTrade bf rows) : b.time ∈ validBarTimes bf := by
  simp only [groupByBarTrade, List.mem_map] at hb
  obtain ⟨c, hc, rfl⟩ := hb
  obtain ⟨i, a, ha, rfl⟩ := mapIdxFrom_mem hc
  simp only [List.mem_map] at ha
  obtain ⟨d, hd, rfl⟩ := ha
  have := (List.mem_filter.1 hd).2
  simpa using this

section ClaimTheorems

attribute [local semireducible] Rat.add Rat.sub Rat.mul Rat.inv

/-- C8: in every surge-detection mode the rule is the same: a null baseline
std (here: null variance) or a zero std forces `is_surge = false`, and for a
non-null non-zero std `σ` (with `σ² = var`) the mark is exactly
`vol > μ + θ·σ`; moreover every row produced by any of the three detectors
carries `is_surge = markSurge θ vol μ var` of its own baseline columns. -/
theorem c8_sigma_zero_rule (vol m θ var σ : ℚ) :
    (∀ mo : Option ℚ, markSurge θ vol mo none = false) ∧
    (markSurge θ vol (some m) (some 0) = false) ∧
    (0 ≤ θ → 0 ≤ σ → σ ^ 2 = var → var ≠ 0 →
      markSurge θ vol (some m) (some var) = decide (m + θ * σ < vol)) ∧
    (∀ (f : BarFreq) (tt : TradingTime) (bars : List SBar) (r : SRow),
      r ∈ identifySurgeEod f tt θ bars →
      r.isSurge = markSurge θ r.bar.vol r.baseMean r.baseVar) ∧
    (∀ (k : Nat) (bars : List SBar) (r : SRow),
      r ∈ identifySurgeM10Rolling k θ bars →
      r.isSurge = markSurge θ r.bar.vol r.baseMean r.baseVar) ∧
    (∀ (lbH : Nat) (bars : List SBar) (r : SRow),
      r ∈ identifySurgeM10SameTime lbH θ bars →
      r.isSurge = markSurge θ r.bar.vol r.baseMean r.baseVar) := by
  refine ⟨?_, ?_, ?_, ?_, ?_, ?_⟩
  · intro mo; cases mo <;> rfl
  · simp [markSurge]
  · intro hθ hσ hvar hvne
    have hσθ : 0 ≤ θ * σ := mul_nonneg hθ hσ
    have hvv : θ ^ 2 * var = (θ * σ) ^ 2 := by rw [← hvar]; ring
    simp only [markSurge, if_neg hvne, surgeGt, hvv]
    by_cases h : m + θ * σ < vol
    · have h1 : m < vol := by nlinarith
      have h2 : (θ * σ) ^ 2 < (vol - m) ^ 2 := by nlinarith
      simp [h1, h2, h]
    · push_neg at h
      by_cases hmv : m < vol
      · have h2 : ¬ (θ * σ) ^ 2 < (vol - m) ^ 2 := by nlinarith
        simp [hmv, h2, not_lt.2 h]
      · simp [hmv, not_lt.2 h]
  · intro f tt bars r hr
    simp only [identifySurgeEod, List.mem_map] at hr
    obtain ⟨x, hx, rfl⟩ := hr
    rfl
  · intro k bars r hr
    simp only [identifySurgeM10Rolling] at hr
    obtain ⟨i, a, ha, rfl⟩ := mapIdxFrom_mem hr
    rfl
  · intro lbH bars r hr
    simp only [identifySurgeM10SameTime, List.mem_flatten, List.mem_map] at hr
    obtain ⟨lsub, ⟨d, hd, hls⟩, hrl⟩ := hr
    subst hls
    by_cases hc : (lookbackDates (distinctDates bars) lbH d).length < lbH
    · simp [hc] at hrl
    · simp only [if_neg hc, sameTimeAnnotate, List.mem_map] at hrl
      obtain ⟨x, hx, rfl⟩ := hrl
      rfl

/-- Witness for C8: at `vol = 3, μ = 1, θ = 1, var = σ² = 1` the σ-positive
branch reduces the mark to the spec's comparison. -/
theorem c8_sigma_zero_rule_witness :
    markSurge 1 3 (some 1) (some 1) = decide ((1 : ℚ) + 1 * 1 < 3) :=
  (c8_sigma_zero_rule 3 1 1 1 1).2.2.1 (by norm_num) (by norm_num) (by norm_num)
    (by norm_num)

/-- C2: every finalized EOD factor row (surge_ret aggregation followed by the
spec-modelled `bar_time := date ⊕ 15:00:00` step that `legion_saver`'s EOD
writer consumes) carries a bar_time whose time of day is 15:00:00.000 and
whose date part is the row's date. -/
theorem c2_eod_bar_time (stat : IntradayStat) (ntr ab : Bool) (rows : List SRow)
    (out : List EodFactorRow) (hok : aggregateSurgeRetEod stat ntr ab rows = .ok out)
    (fr : FinalEodRow) (hfr : fr ∈ finalizeEodBarTime out) :
    fr.barTimeTod = minuteMs 15 0 ∧ fr.barTimeDate = fr.date := by
  simp only [finalizeEodBarTime, List.mem_map] at hfr
  obtain ⟨r, hr, rfl⟩ := hfr
  exact ⟨rfl, rfl⟩

/-- Witness for C2 on the S4 scenario. -/
theorem c2_eod_bar_time_witness :
    (⟨"A", 20220104, 20220104, minuteMs 15 0, some (1/20)⟩ : FinalEodRow).barTimeTod =
        minuteMs 15 0 ∧
    (⟨"A", 20220104, 20220104, minuteMs 15 0, some (1/20)⟩ : FinalEodRow).barTimeDate =
        (⟨"A", 20220104, 20220104, minuteMs 15 0, some (1/20)⟩ : FinalEodRow).date :=
  c2_eod_bar_time IntradayStat.mean false false
    (identifySurgeEod BarFreq.m5 TradingTime.allDay 1 s4Bars)
    [⟨"A", 20220104, some (1/20), some (1/20)⟩] (by decide) _ (by decide)

/-- C3 counterexample: with two configurations of frequencies 1m and 5m the
task builds bars only at the first configuration's frequency, and the frame
handed to the 5m configuration is not the 5m bar frame of the same ticks. -/
theorem c3_counterexample :
    c3Configs[1]? = some ⟨BarFreq.m5, 1⟩ ∧
    settlementDayBuiltFreqs c3Configs = [BarFreq.m1] ∧
    frameUsedFor c3Configs c3Ticks ⟨BarFreq.m5, 1⟩ ≠ groupByBarTrade BarFreq.m5 c3Ticks := by
  exact ⟨by decide, by decide, by decide⟩

/-- C3 (amended): the settlement-day task builds exactly one bar frame, at
the frequency of the first factor configuration, and every configuration is
evaluated on that single frame; hence a configuration is evaluated on the bar
frame of its own frequency exactly when its frequency equals the first
configuration's. -/
theorem c3_single_frame_per_task (configs : List FactorConfig) (ticks : List Trade) :
    settlementDayBuiltFreqs configs = [firstBarFreq configs] ∧
    (∀ c, c ∈ configs → frameUsedFor configs ticks c = settlementDayBarFrame configs ticks) ∧
    (∀ c, c ∈ configs → c.barFreq = firstBarFreq configs →
      frameUsedFor configs ticks c = groupByBarTrade c.barFreq ticks) := by
  refine ⟨rfl, fun c _ => rfl, fun c _ hc => ?_⟩
  unfold frameUsedFor settlementDayBarFrame
  rw [hc]

/-- Witness for C3's amended statement at the concrete configuration list. -/
theorem c3_single_frame_per_task_witness :
    frameUsedFor c3Configs c3Ticks ⟨BarFreq.m1, 1⟩ = groupByBarTrade BarFreq.m1 c3Ticks :=
  (c3_single_frame_per_task c3Configs c3Ticks).2.2 ⟨BarFreq.m1, 1⟩ (by decide) (by decide)

/-- C5 counterexample: on the S4 input under the source's default
configuration (cross-sectional neutralization on), the lone symbol's
factor_value is 0, not 0.05 — the individual statistic 0.05 is de-meaned by
the cross section of one symbol. -/
theorem c5_counterexample :
    (identifySurgeEod BarFreq.m5 TradingTime.allDay 1 s4Bars).map (·.isSurge) =
      [false, false, true] ∧
    aggregateSurgeRetEod IntradayStat.mean true false
        (identifySurgeEod BarFreq.m5 TradingTime.allDay 1 s4Bars) =
      .ok [⟨"A", 20220104, some (1/20), some 0⟩] ∧
    some ((0 : ℚ)) ≠ some ((1 : ℚ)/20) := by
  exact ⟨by decide, by decide, by decide⟩

/-- C5 (amended): on the S4 input exactly the third bar is a surge; the EOD
aggregation's individual statistic is 0.05 and, with neutralization disabled,
the factor_value is 0.05; the spec-modelled EOD finalization stamps
bar_time's time of day 15:00:00.000. -/
theorem c5_eod_surge_ret :
    (identifySurgeEod BarFreq.m5 TradingTime.allDay 1 s4Bars).map (·.isSurge) =
      [false, false, true] ∧
    aggregateSurgeRetEod IntradayStat.mean false false
        (identifySurgeEod BarFreq.m5 TradingTime.allDay 1 s4Bars) =
      .ok [⟨"A", 20220104, some (1/20), some (1/20)⟩] ∧
    finalizeEodBarTime [⟨"A", 20220104, some (1/20), some (1/20)⟩] =
      [⟨"A", 20220104, 20220104, minuteMs 15 0, some (1/20)⟩] := by
  exact ⟨by decide, by decide, by decide⟩

/-- C1: the M10 branch of `_aggregate_surge_ret` groups the surge rows by the
raw `(symbol, date, bar_time)` — there is no projection to the enclosing M10
bar-time anywhere in the source.  On the S6 input (1m surges at 10:37 and
10:38) it emits two rows keyed 10:37 and 10:38 with the individual bar
returns, and no row at 10:40, contradicting both the claim and the code's own
"24 time points per day" documentation and validator. -/
theorem c1_m10_no_projection :
    aggregateSurgeRetM10 IntradayStat.mean false false s6Rows =
      .ok [⟨"A", 20220104, minuteMs 10 37, some (1/100), some (1/100)⟩,
           ⟨"A", 20220104, minuteMs 10 38, some (1/50), some (1/50)⟩] ∧
    minuteMs 10 37 ≠ minuteMs 10 40 ∧ minuteMs 10 38 ≠ minuteMs 10 40 := by
  exact ⟨by decide, by decide, by decide⟩

end ClaimTheorems

theorem filter_getElem?_count (p : α → Bool) :
    ∀ (l : List α) (i : Nat) (x : α), l[i]? = some x → p x = true →
      (l.filter p)[((l.take i).filter p).length]? = some x := by
  intro l
  induction l with
  | nil => intro i x h _; simp at h
  | cons a as ih =>
    intro i x h hp
    cases i with
    | zero =>
      simp only [List.getElem?_cons_zero, Option.some.injEq] at h
      subst h
      simp [List.filter_cons, hp]
    | succ j =>
      simp only [List.getElem?_cons_succ] at h
      by_cases hpa : p a = true
      · simpa [List.filter_cons, hpa, List.take_succ_cons] using ih j x h hp
      · have hpa' : p a = false := by simpa using hpa
        simpa [List.filter_cons, hpa', List.take_succ_cons] using ih j x h hp

section ClaimTheorems2

attribute [local semireducible] Rat.add Rat.sub Rat.mul Rat.inv

/-- C6: in M10 rolling mode, with `j` the number of earlier bars of the row's
symbol in `(symbol, date, bar_time)` order, a row with `j < k` preceding bars
has null baselines and `is_surge = false`; a row with `j ≥ k` has its baseline
mean and variance computed over exactly the `k` same-symbol bars at positions
`j−k … j−1`, a window of length exactly `k` that excludes the current bar
(which sits at position `j`); and the mark always follows `markSurge`. -/
theorem c6_rolling_window (k : Nat) (θ : ℚ) (bars : List SBar) (i : Nat) (r : SRow)
    (hr : (identifySurgeM10Rolling k θ bars)[i]? = some r)
    (j : Nat)
    (hj : j = (((sortByKey sbarLe bars).take i).filter
      (fun s => decide (s.symbol = r.bar.symbol))).length) :
    (j < k → r.baseMean = none ∧ r.baseVar = none ∧ r.isSurge = false) ∧
    (0 < k → k ≤ j →
      r.baseMean =
        listMean (((symbolVols (sortByKey sbarLe bars) r.bar.symbol).drop (j - k)).take k) ∧
      r.baseVar =
        listVar (((symbolVols (sortByKey sbarLe bars) r.bar.symbol).drop (j - k)).take k) ∧
      (((symbolVols (sortByKey sbarLe bars) r.bar.symbol).drop (j - k)).take k).length = k ∧
      (symbolVols (sortByKey sbarLe bars) r.bar.symbol)[j]? = some r.bar.vol) ∧
    r.isSurge = markSurge θ r.bar.vol r.baseMean r.baseVar := by
  simp only [identifySurgeM10Rolling, mapIdxFrom_getElem?, Nat.zero_add] at hr
  obtain ⟨b, hb, hfb⟩ := Option.map_eq_some'.1 hr
  subst hfb
  simp only at hj ⊢
  subst hj
  set sorted := sortByKey sbarLe bars with hsorted
  set p : SBar → Bool := fun s => decide (s.symbol = b.symbol) with hp
  set j := ((sorted.take i).filter p).length with hjdef
  have hjle : j ≤ (symbolVols sorted b.symbol).length := by
    have h1 : List.Sublist ((sorted.take i).filter p) (sorted.filter p) :=
      (List.take_sublist i sorted).filter p
    have h2 := h1.length_le
    simpa [symbolVols, hjdef, hp] using h2
  refine ⟨?_, ?_, by trivial⟩
  · intro hjk
    by_cases hj0 : j = 0
    · simp [shiftRollMean, shiftRollVar, hj0, markSurge]
    · have hlt : ¬ k ≤ j - 1 + 1 := by omega
      simp [shiftRollMean, shiftRollVar, rollMeanAt, rollVarAt, hj0, hlt, markSurge]
  · intro hk hkj
    have hj0 : j ≠ 0 := by omega
    have hle : k ≤ j - 1 + 1 := by omega
    have hidx : j - 1 + 1 - k = j - k := by omega
    have hwin : (((symbolVols sorted b.symbol).drop (j - k)).take k).length = k := by
      have := hjle
      simp only [List.length_take, List.length_drop]
      omega
    refine ⟨?_, ?_, hwin, ?_⟩
    · simp [shiftRollMean, rollMeanAt, rollWindow, hj0, hle, hidx]
    · simp [shiftRollVar, rollVarAt, rollWindow, hj0, hle, hidx]
    · have hpb : p b = true := by simp [hp]
      have := filter_getElem?_count p sorted i b hb hpb
      simp only [symbolVols, List.getElem?_map, hp]
      rw [← hjdef] at this
      simp [this, hp]

set_option maxRecDepth 16000 in
/-- Witness for C6 on the S5 scenario: bar 49 (index 48, with exactly k = 48
preceding bars) has baseline μ = 100, σ = 0 and is not a surge. -/
theorem c6_rolling_window_witness :
    (identifySurgeM10Rolling 48 3 s5Bars)[48]? = some c6Row48 ∧
    c6Row48.baseVar = some 0 ∧
    c6Row48.isSurge = markSurge 3 c6Row48.bar.vol c6Row48.baseMean c6Row48.baseVar :=
  ⟨by decide, by decide,
    (c6_rolling_window 48 3 s5Bars 48 c6Row48 (by decide) 48 (by decide)).2.2⟩

end ClaimTheorems2

/-! ## String helper lemmas for the symbol decoration -/

theorem pfxOf_self (l : List Char) : pfxOf l l = true := by
  induction l with
  | nil => rfl
  | cons a as ih => simp [pfxOf, ih]

theorem hasSeg_append_self (p l : List Char) : hasSeg p (l ++ p) = true := by
  induction l with
  | nil =>
    cases p with
    | nil => rfl
    | cons c cs => simp [hasSeg, pfxOf_self]
  | cons a as ih => simp [hasSeg, ih]

theorem pfxOf_nondigit_head (c : Char) (rest l : List Char) (hc : c.isDigit = false)
    (hl : ∀ d ∈ l, d.isDigit = true) : pfxOf (c :: rest) l = false := by
  cases l with
  | nil => rfl
  | cons d ds =>
    have hd := hl d (by simp)
    have hne : (decide (c = d)) = false := by
      refine decide_eq_false ?_
      intro he
      subst he
      rw [hc] at hd
      exact Bool.noConfusion hd
    simp [pfxOf, hne]

theorem hasSeg_nondigit (c : Char) (rest : List Char) :
    ∀ (l : List Char), c.isDigit = false → (∀ d ∈ l, d.isDigit = true) →
      hasSeg (c :: rest) l = false := by
  intro l
  induction l with
  | nil => intro _ _; rfl
  | cons d ds ih =>
    intro hc hl
    have h1 := pfxOf_nondigit_head c rest (d :: ds) hc hl
    have h2 := ih hc (fun e he => hl e (by simp [he]))
    simp [hasSeg, h1, h2]

theorem padStart6_digits (s : String) (hd : ∀ c ∈ s.data, c.isDigit = true) :
    ∀ c ∈ (padStart6 s).data, c.isDigit = true := by
  intro c hc
  simp only [padStart6, String.data_append] at hc
  rcases List.mem_append.1 hc with h | h
  · have : c = '0' := List.eq_of_mem_replicate h
    subst this
    decide
  · exact hd c h

section ClaimTheorems3

attribute [local semireducible] Rat.add Rat.sub Rat.mul Rat.inv

/-- C9: bar-time assignment is left-open/right-closed on the midnight-anchored
grid — `bar_time(x) = x` exactly when the frequency divides `x`, otherwise
`truncate(x) + freq`; the result always lies in `[x, x + freq)`; every bar the
trade builder emits has its time of day in the enumerated valid bar times; and
the single S1 trade at exactly 09:35:00.000 at 5m yields only the 09:35 bar
with `open = high = low = close = 10`, `vol = 100`, `amt = 1000`. -/
theorem c9_bar_time_assignment (bf : BarFreq) (x : Nat) :
    (barTime (freqMs bf) x = x ↔ freqMs bf ∣ x) ∧
    (¬ freqMs bf ∣ x → barTime (freqMs bf) x = truncMs (freqMs bf) x + freqMs bf) ∧
    x ≤ barTime (freqMs bf) x ∧ barTime (freqMs bf) x < x + freqMs bf ∧
    (∀ (rows : List Trade) (b : Bar), b ∈ groupByBarTrade bf rows →
      b.time ∈ validBarTimes bf) ∧
    groupByBarTrade BarFreq.m5 s1Trades = [s1Bar] := by
  have hf : 0 < freqMs bf := by cases bf <;> decide
  obtain ⟨h1, h2, _⟩ := barTime_bounds (freqMs bf) x hf
  refine ⟨barTime_eq_self_iff _ _ hf, ?_, h1, h2,
    fun rows b hb => groupByBarTrade_time_valid bf rows b hb, by decide⟩
  intro hnd
  have hne : truncMs (freqMs bf) x ≠ x := by
    intro hteq
    unfold truncMs at hteq
    exact hnd ⟨x / freqMs bf, hteq.symm⟩
  unfold barTime
  rw [if_neg hne]

/-- Witness for C9: the S1 bar's time of day is a valid 5m bar time. -/
theorem c9_bar_time_assignment_witness : s1Bar.time ∈ validBarTimes BarFreq.m5 :=
  (c9_bar_time_assignment BarFreq.m5 0).2.2.2.2.1 s1Trades s1Bar (by decide)

/-- C4 counterexample: the tick loader's `add_exchange_suffix` has no `.BJ`
branch — `inst_id` 430001 gets no suffix and is filtered out, not retained. -/
theorem c4_counterexample : decorateLoaderSymbol ("430001") = none := by decide

/-- C4 (amended): both decorations zero-pad to six characters; prefixes 60/68
map to `.SH` and 00/30 to `.SZ` in both variants; a padded code with prefix
8, 43 or 87 is discarded by the loader variant but retained with `.BJ` by the
`high_freq_cancel_M10` variant; any remaining digit prefix is discarded by
both. -/
theorem c4_symbol_decoration (s : String) (hd : ∀ c ∈ s.data, c.isDigit = true) :
    (s.data.length ≤ 6 → (padStart6 s).data.length = 6) ∧
    ((startsWithStr (padStart6 s) ("60") || startsWithStr (padStart6 s) ("68")) = true →
      decorateLoaderSymbol s = some (padStart6 s ++ (".SH")) ∧
      decorateCancelSymbol s = some (padStart6 s ++ (".SH"))) ∧
    ((startsWithStr (padStart6 s) ("60") || startsWithStr (padStart6 s) ("68")) = false →
      (startsWithStr (padStart6 s) ("00") || startsWithStr (padStart6 s) ("30")) = true →
      decorateLoaderSymbol s = some (padStart6 s ++ (".SZ")) ∧
      decorateCancelSymbol s = some (padStart6 s ++ (".SZ"))) ∧
    ((startsWithStr (padStart6 s) ("60") || startsWithStr (padStart6 s) ("68")) = false →
      (startsWithStr (padStart6 s) ("00") || startsWithStr (padStart6 s) ("30")) = false →
      (startsWithStr (padStart6 s) ("8") || startsWithStr (padStart6 s) ("43") ||
        startsWithStr (padStart6 s) ("87")) = true →
      decorateLoaderSymbol s = none ∧
      decorateCancelSymbol s = some (padStart6 s ++ (".BJ"))) ∧
    ((startsWithStr (padStart6 s) ("60") || startsWithStr (padStart6 s) ("68")) = false →
      (startsWithStr (padStart6 s) ("00") || startsWithStr (padStart6 s) ("30")) = false →
      (startsWithStr (padStart6 s) ("8") || startsWithStr (padStart6 s) ("43") ||
        startsWithStr (padStart6 s) ("87")) = false →
      decorateLoaderSymbol s = none ∧ decorateCancelSymbol s = none) := by
  have hpd := padStart6_digits s hd
  have hdot : ('.' : Char).isDigit = false := by decide
  have hS : ('S' : Char).isDigit = false := by decide
  have hB : ('B' : Char).isDigit = false := by decide
  have hlen : (s.data.length ≤ 6 → (padStart6 s).data.length = 6) := by
    intro h6
    simp only [padStart6, String.data_append, List.length_append, List.length_replicate]
    omega
  have hposSH : containsStr (padStart6 s ++ (".SH")) (".SH") = true := by
    simp only [containsStr, String.data_append]
    exact hasSeg_append_self _ _
  have hposSZ : containsStr (padStart6 s ++ (".SZ")) (".SZ") = true := by
    simp only [containsStr, String.data_append]
    exact hasSeg_append_self _ _
  have hcanSH : containsStr (padStart6 s ++ (".SH")) ("SH") = true := by
    simp only [containsStr, String.data_append]
    have : (padStart6 s).data ++ ('.' :: 'S' :: 'H' :: []) =
        ((padStart6 s).data ++ ['.']) ++ ('S' :: 'H' :: []) := by simp
    rw [this]
    exact hasSeg_append_self _ _
  have hcanSZ : containsStr (padStart6 s ++ (".SZ")) ("SZ") = true := by
    simp only [containsStr, String.data_append]
    have : (padStart6 s).data ++ ('.' :: 'S' :: 'Z' :: []) =
        ((padStart6 s).data ++ ['.']) ++ ('S' :: 'Z' :: []) := by simp
    rw [this]
    exact hasSeg_append_self _ _
  have hcanBJ : containsStr (padStart6 s ++ (".BJ")) ("BJ") = true := by
    simp only [containsStr, String.data_append]
    have : (padStart6 s).data ++ ('.' :: 'B' :: 'J' :: []) =
        ((padStart6 s).data ++ ['.']) ++ ('B' :: 'J' :: []) := by simp
    rw [this]
    exact hasSeg_append_self _ _
  have hnegLoader : ∀ pat : String, pat.data.head? = some '.' →
      containsStr (padStart6 s) pat = false := by
    intro pat hpat
    cases hp : pat.data with
    | nil => rw [hp] at hpat; exact Option.noConfusion hpat
    | cons c cs =>
      rw [hp] at hpat
      have hc : c = '.' := by simpa using hpat
      subst hc
      simp only [containsStr, hp]
      exact hasSeg_nondigit '.' cs (padStart6 s).data hdot hpd
  have hnegS : ∀ cs : List Char,
      hasSeg ('S' :: cs) (padStart6 s).data = false :=
    fun cs => hasSeg_nondigit 'S' cs (padStart6 s).data hS hpd
  have hnegB : ∀ cs : List Char,
      hasSeg ('B' :: cs) (padStart6 s).data = false :=
    fun cs => hasSeg_nondigit 'B' cs (padStart6 s).data hB hpd
  refine ⟨hlen, ?_, ?_, ?_, ?_⟩
  · intro hSH
    constructor
    · simp only [decorateLoaderSymbol, hSH, if_true, hposSH]
      simp
    · simp only [decorateCancelSymbol, hSH, if_true, hcanSH]
      simp
  · intro hSH hSZ
    constructor
    · simp only [decorateLoaderSymbol, hSH, hSZ, if_true]
      simp [hposSZ]
    · simp only [decorateCancelSymbol, hSH, hSZ, if_true]
      simp [hcanSZ]
  · intro hSH hSZ hBJ
    constructor
    · have h1 := hnegLoader (".SH") (by rfl)
      have h2 := hnegLoader (".SZ") (by rfl)
      simp only [decorateLoaderSymbol, hSH, hSZ]
      simp [h1, h2]
    · simp only [decorateCancelSymbol, hSH, hSZ, hBJ, if_true]
      simp [hcanBJ]
  · intro hSH hSZ hBJ
    constructor
    · have h1 := hnegLoader (".SH") (by rfl)
      have h2 := hnegLoader (".SZ") (by rfl)
      simp only [decorateLoaderSymbol, hSH, hSZ]
      simp [h1, h2]
    · have h1 : containsStr (padStart6 s) ("SH") = false := hnegS _
      have h2 : containsStr (padStart6 s) ("SZ") = false := hnegS _
      have h3 : containsStr (padStart6 s) ("BJ") = false := hnegB _
      simp only [decorateCancelSymbol, hSH, hSZ, hBJ]
      simp [h1, h2, h3]

/-- Witness for C4's amended statement at codes 600001 (kept `.SH` by both)
and, via the counterexample input, 430001. -/
theorem c4_symbol_decoration_witness :
    decorateLoaderSymbol ("600001") = some (padStart6 ("600001") ++ (".SH")) ∧
    decorateCancelSymbol ("430001") = some (padStart6 ("430001") ++ (".BJ")) :=
  ⟨((c4_symbol_decoration ("600001") (by decide)).2.1 (by decide)).1,
   ((c4_symbol_decoration ("430001") (by decide)).2.2.2.1 (by decide) (by decide)
      (by decide)).2⟩

/-- C10: a missing required tick file makes `check_tick_files_exist` skip the
whole task (returning nothing); in the engine a missing trade file for the
settlement date makes the task's catch block return an empty result map, so
the date emits nothing, and the engine's concatenated output over any date
list equals the output with that date removed — the remaining dates are
unaffected. -/
theorem c10_missing_input (env : TickStore) (d : Nat) (f : BarFreq) (tt : TradingTime)
    (θ : ℚ) (stat : IntradayStat) (ntr ab : Bool) :
    (∀ p, p ∈ hfRequiredPaths d → env.present p = false →
      ∀ (α : Type) (g : Nat → α), checkTickFilesExist env g d = none) ∧
    (∀ p, p ∈ tradePaths [d] → env.present p = false →
      calcSingleDay env f tt θ stat ntr ab d = [] ∧
      ∀ dates : List Nat,
        engineOutputs env f tt θ stat ntr ab dates =
          engineOutputs env f tt θ stat ntr ab
            (dates.filter (fun x => decide (¬ x = d)))) := by
  constructor
  · intro p hp hnp α g
    unfold checkTickFilesExist
    rw [if_neg]
    intro hall
    rw [List.all_eq_true] at hall
    have := hall p hp
    rw [hnp] at this
    exact Bool.noConfusion this
  · intro p hp hnp
    have hload : loadTrade env [d] = .error ("missing tick file") := by
      unfold loadTrade
      rw [if_neg]
      intro hall
      rw [List.all_eq_true] at hall
      have := hall p hp
      rw [hnp] at this
      exact Bool.noConfusion this
    have hcalc : calcSingleDay env f tt θ stat ntr ab d = [] := by
      unfold calcSingleDay taskBody
      rw [hload]
    refine ⟨hcalc, ?_⟩
    intro dates
    induction dates with
    | nil => rfl
    | cons x xs ih =>
      by_cases hx : x = d
      · subst hx
        simp only [engineOutputs, List.map_cons, List.flatten_cons, hcalc,
          List.filter_cons, decide_not, List.nil_append]
        simpa using ih
      · simp only [engineOutputs, List.map_cons, List.flatten_cons,
          List.filter_cons, decide_not]
        have hxd : (decide (x = d)) = false := decide_eq_false hx
        rw [hxd]
        simp only [Bool.not_false, if_true, List.map_cons, List.flatten_cons]
        congr 1
        simpa [engineOutputs] using ih

/-- Witness for C10: with `trade/SH/20220104` absent, the decorator skips,
the task emits nothing, and the engine output over two dates equals the
output with the failing date filtered out. -/
theorem c10_missing_input_witness :
    checkTickFilesExist c10Env (fun n => n) 20220104 = none ∧
    calcSingleDay c10Env BarFreq.m1 TradingTime.allDay 1 IntradayStat.mean true false
        20220104 = [] ∧
    engineOutputs c10Env BarFreq.m1 TradingTime.allDay 1 IntradayStat.mean true false
        [20220104, 20220105] =
      engineOutputs c10Env BarFreq.m1 TradingTime.allDay 1 IntradayStat.mean true false
        ([20220104, 20220105].filter (fun x => decide (¬ x = 20220104))) := by
  have h := c10_missing_input c10Env 20220104 BarFreq.m1 TradingTime.allDay 1
    IntradayStat.mean true false
  refine ⟨h.1 ⟨.trade, .sh, 20220104⟩ (by decide) (by decide) Nat (fun n => n), ?_, ?_⟩
  · exact (h.2 ⟨.trade, .sh, 20220104⟩ (by decide) (by decide)).1
  · exact (h.2 ⟨.trade, .sh, 20220104⟩ (by decide) (by decide)).2 [20220104, 20220105]

end ClaimTheorems3

/-! ## Sorted-dates helper lemmas for the same-time detector -/

theorem insDate_mem (d e : Nat) : ∀ (l : List Nat), e ∈ insDate d l ↔ e = d ∨ e ∈ l := by
  intro l
  induction l with
  | nil => simp [insDate]
  | cons a as ih =>
    by_cases h1 : d < a
    · simp [insDate, h1]
      try tauto
    · by_cases h2 : d = a
      · subst h2
        simp [insDate, h1]
        try tauto
      · simp [insDate, h1, h2, ih]
        try tauto

theorem insDate_pairwise (d : Nat) :
    ∀ (l : List Nat), List.Pairwise (· < ·) l → List.Pairwise (· < ·) (insDate d l) := by
  intro l
  induction l with
  | nil => intro _; simp [insDate]
  | cons a as ih =>
    intro hp
    rw [List.pairwise_cons] at hp
    obtain ⟨ha, has⟩ := hp
    by_cases h1 : d < a
    · simp only [insDate, if_pos h1]
      rw [List.pairwise_cons]
      refine ⟨?_, List.pairwise_cons.2 ⟨ha, has⟩⟩
      intro b hb
      rcases List.mem_cons.1 hb with h | h
      · omega
      · have := ha b h
        omega
    · by_cases h2 : d = a
      · simp only [insDate, if_neg h1, if_pos h2]
        exact List.pairwise_cons.2 ⟨ha, has⟩
      · simp only [insDate, if_neg h1, if_neg h2]
        rw [List.pairwise_cons]
        refine ⟨?_, ih has⟩
        intro b hb
        rcases (insDate_mem d b as).1 hb with h | h
        · subst h
          omega
        · exact ha b h

theorem distinctDates_pairwise (bars : List SBar) :
    List.Pairwise (· < ·) (distinctDates bars) := by
  unfold distinctDates
  induction bars with
  | nil => simp
  | cons b bs ih => exact insDate_pairwise b.date _ ih

theorem idxDate_getElem? : ∀ (l : List Nat) (d : Nat), d ∈ l → l[idxDate d l]? = some d := by
  intro l
  induction l with
  | nil => intro d h; simp at h
  | cons e es ih =>
    intro d h
    by_cases he : e = d
    · simp [idxDate, he]
    · have hmem : d ∈ es := by
        rcases List.mem_cons.1 h with h1 | h1
        · exact absurd h1.symm he
        · exact h1
      simp [idxDate, he, ih d hmem]

theorem getElem?_take_eq (l : List α) :
    ∀ (n j : Nat), (l.take n)[j]? = if j < n then l[j]? else none := by
  induction l with
  | nil => intro n j; simp
  | cons a as ih =>
    intro n j
    cases n with
    | zero => simp
    | succ m =>
      cases j with
      | zero => simp
      | succ i => simpa using ih m i

theorem getElem?_drop_eq (l : List α) :
    ∀ (a j : Nat), (l.drop a)[j]? = l[a + j]? := by
  induction l with
  | nil => intro a j; simp
  | cons x xs ih =>
    intro a j
    cases a with
    | zero => simp
    | succ b =>
      simp only [List.drop_succ_cons, ih b j]
      have : b + 1 + j = (b + j) + 1 := by omega
      rw [this, List.getElem?_cons_succ]

theorem mem_slice_iff (l : List Nat) (a n y : Nat) :
    y ∈ (l.drop a).take n ↔ ∃ q, a ≤ q ∧ q < a + n ∧ l[q]? = some y := by
  rw [List.mem_iff_getElem?]
  constructor
  · intro ⟨j, hj⟩
    rw [getElem?_take_eq] at hj
    by_cases hjn : j < n
    · rw [if_pos hjn, getElem?_drop_eq] at hj
      exact ⟨a + j, by omega, by omega, hj⟩
    · rw [if_neg hjn] at hj
      exact Option.noConfusion hj
  · intro ⟨q, hq1, hq2, hq3⟩
    refine ⟨q - a, ?_⟩
    rw [getElem?_take_eq, if_pos (by omega), getElem?_drop_eq]
    have : a + (q - a) = q := by omega
    rw [this]
    exact hq3

theorem pairwise_lt_of_getElem? {l : List Nat} (hp : List.Pairwise (· < ·) l)
    {q i y d : Nat} (hq : l[q]? = some y) (hi : l[i]? = some d) (hqi : q < i) :
    y < d := by
  rw [List.getElem?_eq_some] at hq hi
  obtain ⟨hq1, hq2⟩ := hq
  obtain ⟨hi1, hi2⟩ := hi
  have := List.pairwise_iff_getElem.1 hp q i hq1 hi1 hqi
  rw [hq2, hi2] at this
  exact this

section ClaimTheorems4

attribute [local semireducible] Rat.add Rat.sub Rat.mul Rat.inv

/-- C7: every output row of the M10 same-time detector belongs to a target
date with at least H strictly earlier distinct dates in the loaded frame; its
lookback window consists of exactly H dates of the frame, all strictly before
the target date, and maximal (any frame date before the target that is not in
the window precedes everything in the window); the row's baselines are the
mean/variance of `vol` over the rows of those dates with the same symbol and
the same original time-of-day; and the mark follows `markSurge`.  Target
dates with fewer than H earlier dates contribute no rows. -/
theorem c7_same_time_window (lbH : Nat) (θ : ℚ) (bars : List SBar) (r : SRow)
    (hr : r ∈ identifySurgeM10SameTime lbH θ bars) :
    r.bar.date ∈ distinctDates bars ∧
    lbH ≤ ((distinctDates bars).filter (fun e => decide (e < r.bar.date))).length ∧
    (lookbackDates (distinctDates bars) lbH r.bar.date).length = lbH ∧
    (∀ y ∈ lookbackDates (distinctDates bars) lbH r.bar.date,
      y ∈ distinctDates bars ∧ y < r.bar.date) ∧
    (∀ y ∈ distinctDates bars, y < r.bar.date →
      y ∉ lookbackDates (distinctDates bars) lbH r.bar.date →
      ∀ z ∈ lookbackDates (distinctDates bars) lbH r.bar.date, y < z) ∧
    r.baseMean = listMean (((bars.filter (fun s =>
        decide (s.date ∈ lookbackDates (distinctDates bars) lbH r.bar.date))).filter
        (fun s => decide (s.symbol = r.bar.symbol ∧ s.time = r.bar.time))).map (·.vol)) ∧
    r.baseVar = listVar (((bars.filter (fun s =>
        decide (s.date ∈ lookbackDates (distinctDates bars) lbH r.bar.date))).filter
        (fun s => decide (s.symbol = r.bar.symbol ∧ s.time = r.bar.time))).map (·.vol)) ∧
    r.isSurge = markSurge θ r.bar.vol r.baseMean r.baseVar := by
  have hpw := distinctDates_pairwise bars
  simp only [identifySurgeM10SameTime, List.mem_flatten, List.mem_map] at hr
  obtain ⟨lsub, ⟨d, hd, hls⟩, hrl⟩ := hr
  subst hls
  by_cases hc : (lookbackDates (distinctDates bars) lbH d).length < lbH
  · simp [hc] at hrl
  · simp only [if_neg hc, sameTimeAnnotate, List.mem_map] at hrl
    obtain ⟨x, hx, rfl⟩ := hrl
    obtain ⟨hxb, hxd⟩ := List.mem_filter.1 hx
    have hxd' : x.date = d := by simpa using hxd
    subst hxd'
    simp only
    set dates := distinctDates bars with hdates
    set i := idxDate x.date dates with hidef
    have hi : dates[i]? = some x.date := idxDate_getElem? dates x.date hd
    have hlb : lookbackDates dates lbH x.date =
        (dates.drop (i - lbH)).take (i - (i - lbH)) := rfl
    have hlb_le : (lookbackDates dates lbH x.date).length ≤ lbH := by
      rw [hlb]
      simp only [List.length_take, List.length_drop]
      omega
    have hlb_len : (lookbackDates dates lbH x.date).length = lbH := by omega
    have hmem_lb : ∀ y ∈ lookbackDates dates lbH x.date,
        ∃ q, i - lbH ≤ q ∧ q < i ∧ dates[q]? = some y := by
      intro y hy
      rw [hlb, mem_slice_iff] at hy
      obtain ⟨q, hq1, hq2, hq3⟩ := hy
      exact ⟨q, hq1, by omega, hq3⟩
    have hlb_dates : ∀ y ∈ lookbackDates dates lbH x.date, y ∈ dates ∧ y < x.date := by
      intro y hy
      obtain ⟨q, hq1, hq2, hq3⟩ := hmem_lb y hy
      exact ⟨List.getElem?_mem hq3, pairwise_lt_of_getElem? hpw hq3 hi hq2⟩
    refine ⟨hd, ?_, hlb_len, hlb_dates, ?_, by trivial, by trivial, by trivial⟩
    · have hsub : List.Sublist (lookbackDates dates lbH x.date) dates := by
        rw [hlb]
        exact (List.take_sublist _ _).trans (List.drop_sublist _ _)
      have hfeq : (lookbackDates dates lbH x.date).filter
          (fun e => decide (e < x.date)) = lookbackDates dates lbH x.date := by
        rw [List.filter_eq_self]
        intro y hy
        exact decide_eq_true (hlb_dates y hy).2
      have := (hsub.filter (fun e => decide (e < x.date))).length_le
      rw [hfeq, hlb_len] at this
      exact this
    · intro y hy hyd hynot z hz
      set q := idxDate y dates with hqdef
      have hq : dates[q]? = some y := idxDate_getElem? dates y hy
      have hqi : q < i := by
        rcases Nat.lt_trichotomy q i with h | h | h
        · exact h
        · rw [h, hi] at hq
          have hxy : x.date = y := by simpa using hq
          omega
        · have := pairwise_lt_of_getElem? hpw hi hq h
          omega
      have hqlow : q < i - lbH := by
        by_contra hqge
        push_neg at hqge
        apply hynot
        rw [hlb, mem_slice_iff]
        exact ⟨q, hqge, by omega, hq⟩
      obtain ⟨p, hp1, hp2, hp3⟩ := hmem_lb z hz
      exact pairwise_lt_of_getElem? hpw hq hp3 (by omega)

/-- Witness for C7 on a two-date frame with H = 1: the date-2 row's window is
the single date 1; its baseline std over one sample is null, so no surge. -/
theorem c7_same_time_window_witness :
    c7Row.bar.date ∈ distinctDates c7Bars ∧
    (lookbackDates (distinctDates c7Bars) 1 c7Row.bar.date).length = 1 ∧
    c7Row.isSurge = markSurge 1 c7Row.bar.vol c7Row.baseMean c7Row.baseVar := by
  have h := c7_same_time_window 1 1 c7Bars c7Row (by decide)
  exact ⟨h.1, h.2.2.1, h.2.2.2.2.2.2.2⟩

end ClaimTheorems4

end SurgePipeline
